import Mathlib

/-!
Shallow embedding of `hack/tags/tags.go`, the release-tagging helper of this
repository.  The program reads or receives a version tag, increments either the
release MINOR field or the dev counter, and writes the result back to one of two
marker files.  Pure string manipulation (`strings.Split`, `strconv.Atoi`,
`fmt.Sprintf`) is embedded as Lean functions on `String`/`List Char`; the two
marker files and the possibility of I/O failure are embedded as an explicit
state record threaded through the file-writing operations.  Go's `int` is
64-bit on all platforms this tool targets, so numeric fields are embedded as
`Int` together with the explicit signed-64-bit range used by `strconv.Atoi`
and a wrap-around function for the `+ 1` that Go performs on a machine
integer.
-/

namespace Tags

/-- Constant `DefaultTagVersion` from tags.go: value written to the dev marker
file when a GA release is cut. -/
def DefaultTagVersion : String := "dev.1"

/-- Constant `DevFullPathFilename` from tags.go. -/
def DevFullPathFilename : String := "hack/DEV_BUILD_VERSION.yaml"

/-- Constant `NewVersionFullPathFilename` from tags.go. -/
def NewVersionFullPathFilename : String := "hack/NEW_BUILD_VERSION"

/-- Constant `NumberOfSemVerSeparators` from tags.go (release tags have three
dot-separated fields). -/
def NumberOfSemVerSeparators : Nat := 3

/-- Constant `NumberOfSeparatorsInDevTag` from tags.go (dev tags have two
dot-separated fields). -/
def NumberOfSeparatorsInDevTag : Nat := 2

/-- The error values of tags.go: the three named errors plus the anonymous
errors coming from the OS (`os.OpenFile`, write, close) and from
`yaml.Unmarshal`. -/
inductive GoError where
  | invalidVersionFormat
  | dataReaderFailed
  | dataWriterFailed
  | ioError
  | yamlError
deriving DecidableEq

deriving instance DecidableEq for Except

/-- Numeric value of an ASCII digit character. -/
def digitVal (c : Char) : Nat := c.toNat - 48

/-- Value of a list of ASCII digit characters read in base 10, most significant
first (the accumulator loop inside Go's `strconv.ParseUint`). -/
def valDigits (cs : List Char) : Nat :=
  cs.foldl (fun a c => 10 * a + digitVal c) 0

/-- The digits part of Go's `strconv.ParseUint` in base 10: a non-empty,
all-digit character list denotes its base-10 value; anything else is a syntax
error. -/
def natOfDigits (cs : List Char) : Option Nat :=
  if cs ≠ [] ∧ cs.all Char.isDigit then some (valDigits cs) else none

/-- Syntactic layer of Go's `strconv.ParseInt`: an optional leading sign
followed by a non-empty run of digits, with no range restriction.  Returns the
mathematical integer the literal denotes. -/
def intLitVal (s : String) : Option Int :=
  match s.data with
  | [] => none
  | c :: cs =>
    if c = '+' then (natOfDigits cs).map Int.ofNat
    else if c = '-' then (natOfDigits cs).map (fun n => -(Int.ofNat n))
    else (natOfDigits (c :: cs)).map Int.ofNat

/-- Smallest Go `int64` value. -/
def int64Min : Int := -9223372036854775808

/-- Largest Go `int64` value. -/
def int64Max : Int := 9223372036854775807

/-- Go's `strconv.Atoi` on a 64-bit platform: `ParseInt(s, 10, 64)`, i.e. the
decimal literal syntax of `intLitVal` further restricted to the signed 64-bit
range (out-of-range literals give `ErrRange`, so an error for the caller). -/
def atoi (s : String) : Option Int :=
  (intLitVal s).bind (fun n =>
    if int64Min ≤ n ∧ n ≤ int64Max then some n else none)

/-- Wrap-around of Go's 64-bit signed integer addition, applied to the
mathematical result of `+ 1`. -/
def wrap64 (n : Int) : Int :=
  (n + 9223372036854775808) % 18446744073709551616 - 9223372036854775808

/-- Go's `strings.Split(s, ".")` on the character list of `s`: the list of
maximal dot-free segments; always non-empty, and splitting the empty string
yields one empty segment. -/
def splitOnDot : List Char → List (List Char)
  | [] => [[]]
  | c :: rest =>
    if c = '.' then [] :: splitOnDot rest
    else
      match splitOnDot rest with
      | [] => [[c]]
      | g :: gs => (c :: g) :: gs

/-- ASCII digit character for a value below 10. -/
def digitChar (d : Nat) : Char := Char.ofNat (48 + d)

/-- Decimal digits of `n`, most significant first, computed with a structural
fuel argument (`fuel` must exceed `n`; each step divides `n` by 10). -/
def natToDigitsAux : Nat → Nat → List Char
  | 0, _ => []
  | fuel + 1, n =>
    if n < 10 then [digitChar n]
    else natToDigitsAux fuel (n / 10) ++ [digitChar (n % 10)]

/-- Canonical decimal digit list of a natural number. -/
def natToDigits (n : Nat) : List Char := natToDigitsAux (n + 1) n

/-- Canonical decimal string of a natural number. -/
def natDecStr (n : Nat) : String := String.mk (natToDigits n)

/-- Go's `fmt.Sprintf("%d", i)` for a 64-bit integer: minus sign for negative
values, then the decimal digits of the absolute value. -/
def fmtInt (i : Int) : String :=
  if i < 0 then "-" ++ natDecStr i.natAbs else natDecStr i.toNat

/-- Function `incrementRelease` from tags.go: split the tag on dots, require exactly
`NumberOfSemVerSeparators` fields, `Atoi` the second field, and format
`"%s.%d.0"` from the first field and the incremented value.  The first and
third fields are never parsed. -/
def incrementRelease (tag : String) : Except GoError String :=
  match splitOnDot tag.data with
  | [a, b, _] =>
    match atoi (String.mk b) with
    | some ver =>
      Except.ok (String.mk a ++ "." ++ fmtInt (wrap64 (ver + 1)) ++ ".0")
    | none => Except.error GoError.invalidVersionFormat
  | _ => Except.error GoError.invalidVersionFormat

/-- Function `incrementDev` from tags.go: split the tag on dots, require exactly
`NumberOfSeparatorsInDevTag` fields, `Atoi` the second field, and format
`"dev.%d"` from the incremented value.  The first field is never inspected. -/
def incrementDev (tag : String) : Except GoError String :=
  match splitOnDot tag.data with
  | [_, b] =>
    match atoi (String.mk b) with
    | some ver => Except.ok ("dev." ++ fmtInt (wrap64 (ver + 1)))
    | none => Except.error GoError.invalidVersionFormat
  | _ => Except.error GoError.invalidVersionFormat

/-- The `Version` struct of tags.go: a single string field serialized under the
key `version`. -/
structure Version where
  version : String
deriving DecidableEq

/-- Characters this model lets a yaml scalar carry without quoting:
alphanumerics and common version punctuation.  Every value the program itself
writes (the `dev.N` tags) is made of these, and on them the emitted document
is the library's plain one-line form. -/
def yamlPlainChar (c : Char) : Bool :=
  c.isAlphanum || c == '.' || c == '-' || c == '+' || c == '_'

/-- A scalar is emitted plain when it is non-empty and made of plain
characters; anything else is emitted as a double-quoted scalar. -/
def yamlPlain (s : String) : Bool :=
  !s.data.isEmpty && s.data.all yamlPlainChar

/-- Escape of one character inside a double-quoted yaml scalar: quote and
backslash are backslash-escaped, a newline becomes `\n`, everything else is
kept as is. -/
def yamlEscapeChar (c : Char) : List Char :=
  if c = '"' ∨ c = '\\' then ['\\', c]
  else if c = '\n' then ['\\', 'n']
  else [c]

/-- Escape of a whole double-quoted yaml scalar body. -/
def yamlEscape : List Char → List Char
  | [] => []
  | c :: cs => yamlEscapeChar c ++ yamlEscape cs

/-- Modelled from the spec: the dev marker file is "a structured document with
a single field `version` holding a string like `dev.3`".  The yaml library
itself (`github.com/ghodss/yaml`) is not part of this repository, so its
`Marshal` on a `Version` value is modelled as the one-line document
`version: <tag>` followed by a newline, where the tag is written plain when it
consists of plain characters (the form the library emits for every tag this
program writes) and as a double-quoted escaped scalar otherwise (the library
quotes values that a plain scalar could not carry).  The exact boundary
between the two branches is a simplification; what the proofs rely on is that
`yamlUnmarshal` inverts both branches, which is the library's documented
round-trip contract. -/
def yamlMarshal (v : Version) : String :=
  if yamlPlain v.version then "version: " ++ v.version ++ "\n"
  else String.mk ("version: ".data ++ '"' :: (yamlEscape v.version.data ++ ['"', '\n']))

/-- Strip an expected leading character sequence, reporting the remainder. -/
def stripLeading : List Char → List Char → Option (List Char)
  | [], cs => some cs
  | _ :: _, [] => none
  | p :: ps, c :: cs => if c = p then stripLeading ps cs else none

/-- Read a single newline-terminated line that must make up the whole input. -/
def takeLine : List Char → Option (List Char)
  | [] => none
  | c :: rest =>
    if c = '\n' then if rest = [] then some [] else none
    else (takeLine rest).map (fun l => c :: l)

/-- Scanner for the body of a double-quoted yaml scalar, with a structural
fuel argument; each step consumes at least one input character, so any fuel
at least the input length gives the scanner's total behaviour. -/
def parseQuotedAux : Nat → List Char → Option (List Char × List Char)
  | 0, _ => none
  | _ + 1, [] => none
  | fuel + 1, c :: cs =>
    if c = '"' then some ([], cs)
    else if c = '\\' then
      match cs with
      | [] => none
      | e :: cs2 =>
        if e = '"' ∨ e = '\\' then (parseQuotedAux fuel cs2).map (fun p => (e :: p.1, p.2))
        else if e = 'n' then (parseQuotedAux fuel cs2).map (fun p => ('\n' :: p.1, p.2))
        else none
    else (parseQuotedAux fuel cs).map (fun p => (c :: p.1, p.2))

/-- Read the body of a double-quoted yaml scalar up to its closing quote,
undoing the escapes of `yamlEscape`; returns the body and the remainder after
the closing quote. -/
def parseQuoted (cs : List Char) : Option (List Char × List Char) :=
  parseQuotedAux cs.length cs

/-- Modelled from the spec: `yaml.Unmarshal` into a `Version` value, inverse of
`yamlMarshal` on its single-field one-line documents (the only documents this
program ever writes to the dev marker file), reading back both the plain and
the double-quoted scalar form. -/
def yamlUnmarshal (s : String) : Option Version :=
  match stripLeading ("version: ".data) s.data with
  | none => none
  | some rest =>
    if rest.head? = some '"' then
      match parseQuoted rest.tail with
      | none => none
      | some (v, rem) => if rem = ['\n'] then some (Version.mk (String.mk v)) else none
    else
      match takeLine rest with
      | none => none
      | some v => some (Version.mk (String.mk v))

/-- The filesystem visible to tags.go: contents of the two marker files
(`none` when the file does not exist) together with two oracles saying whether
opening the respective file for writing succeeds, which models the I/O failure
paths of `os.OpenFile`/write/close. -/
structure FS where
  devFile : Option String
  newVersionFile : Option String
  devOpenWriteOk : Bool
  newVersionOpenWriteOk : Bool
deriving DecidableEq

/-- A file handle as returned by `os.OpenFile`. -/
structure FileHandle where
  path : String
deriving DecidableEq

/-- A `bufio.Writer` wrapping a file handle. -/
structure BufWriter where
  h : FileHandle
deriving DecidableEq

/-- A `bufio.Reader` wrapping a file handle. -/
structure BufReader where
  h : FileHandle
deriving DecidableEq

/-- Go's `bufio.NewWriter`: in Go this is `&Writer{...}` on a fresh allocation, so
the returned pointer is never nil; the `Option` models the nil-pointer world
the source's defensive check lives in. -/
def bufioNewWriter (h : FileHandle) : Option BufWriter := some (BufWriter.mk h)

/-- Go's `bufio.NewReader`: likewise never nil. -/
def bufioNewReader (h : FileHandle) : Option BufReader := some (BufReader.mk h)

/-- Function `saveRelease` from tags.go: open the new-version marker file with
`O_RDWR|O_CREATE|O_TRUNC`, wrap it in a `bufio.Writer`, defensively check the
writer for nil, then write the raw version string and close.  On an open
failure the file is untouched and the OS error is returned. -/
def saveRelease (version : String) (fs : FS) : Except GoError Unit × FS :=
  if fs.newVersionOpenWriteOk then
    match bufioNewWriter (FileHandle.mk NewVersionFullPathFilename) with
    | none => (Except.error GoError.dataWriterFailed, fs)
    | some _ =>
      (Except.ok (), { fs with newVersionFile := some version })
  else (Except.error GoError.ioError, fs)

/-- Function `saveDev` from tags.go: marshal `Version{tag}` to yaml, open the dev
marker file with `O_RDWR|O_CREATE|O_TRUNC`, wrap it in a `bufio.Writer`,
defensively check the writer for nil, then write the yaml bytes and close. -/
def saveDev (tag : String) (fs : FS) : Except GoError Unit × FS :=
  let byRaw := yamlMarshal (Version.mk tag)
  if fs.devOpenWriteOk then
    match bufioNewWriter (FileHandle.mk DevFullPathFilename) with
    | none => (Except.error GoError.dataWriterFailed, fs)
    | some _ =>
      (Except.ok (), { fs with devFile := some byRaw })
  else (Except.error GoError.ioError, fs)

/-- Function `getTag` from tags.go: open the dev marker file read-only (fails when the
file is missing), wrap it in a `bufio.Reader`, defensively check the reader
for nil, read everything, unmarshal into a `Version`, and return its version
string.  Reading never modifies the filesystem, so no state is returned. -/
def getTag (fs : FS) : Except GoError String :=
  match fs.devFile with
  | none => Except.error GoError.ioError
  | some content =>
    match bufioNewReader (FileHandle.mk DevFullPathFilename) with
    | none => Except.error GoError.dataReaderFailed
    | some _ =>
      match yamlUnmarshal content with
      | none => Except.error GoError.yamlError
      | some v => Except.ok v.version

/-- Function `resetDev` from tags.go: write the fixed baseline `DefaultTagVersion` to
the dev marker file. -/
def resetDev (fs : FS) : Except GoError Unit × FS := saveDev DefaultTagVersion fs

/-- Function `newRelease` from tags.go: increment the supplied release tag, then write
the result to the new-version marker file. -/
def newRelease (current : String) (fs : FS) : Except GoError Unit × FS :=
  match incrementRelease current with
  | Except.error e => (Except.error e, fs)
  | Except.ok newVersion => saveRelease newVersion fs

/-- Function `bumpDev` from tags.go: read the dev tag from the dev marker file,
increment it, and write it back. -/
def bumpDev (fs : FS) : Except GoError Unit × FS :=
  match getTag fs with
  | Except.error e => (Except.error e, fs)
  | Except.ok version =>
    match incrementDev version with
    | Except.error e => (Except.error e, fs)
    | Except.ok newVersion => saveDev newVersion fs

/-- Outcome of one program invocation: `Succeeded` printed, early return with
the missing-tag diagnostic, or early return after a failed step. -/
inductive MainResult where
  | succeeded
  | missingTag
  | failed (e : GoError)
deriving DecidableEq

/-- Function `main` from tags.go, after flag parsing: `release` and `tag` are the two
flag values.  Release mode requires a non-empty tag, resets the dev marker
first and only then cuts the release; dev mode bumps the dev counter. -/
def main (release : Bool) (tag : String) (fs : FS) : MainResult × FS :=
  if release then
    if tag = "" then (MainResult.missingTag, fs)
    else
      match resetDev fs with
      | (Except.error e, fs2) => (MainResult.failed e, fs2)
      | (Except.ok _, fs2) =>
        match newRelease tag fs2 with
        | (Except.error e, fs3) => (MainResult.failed e, fs3)
        | (Except.ok _, fs3) => (MainResult.succeeded, fs3)
  else
    match bumpDev fs with
    | (Except.error e, fs2) => (MainResult.failed e, fs2)
    | (Except.ok _, fs2) => (MainResult.succeeded, fs2)

/-- A dev tag is malformed for `incrementDev` when it does not split into
exactly two dot-separated fields or its second field is not an `Atoi`-parseable
integer (decimal literal within the signed 64-bit range). -/
def devTagMalformed (v : String) : Bool :=
  match splitOnDot v.data with
  | [_, b] => (atoi (String.mk b)).isNone
  | _ => true

/-- A release tag is malformed for `incrementRelease` when it does not split
into exactly three dot-separated fields or its second field is not an
`Atoi`-parseable integer. -/
def relTagMalformed (t : String) : Bool :=
  match splitOnDot t.data with
  | [_, b, _] => (atoi (String.mk b)).isNone
  | _ => true

theorem data_append (a b : String) : (a ++ b).data = a.data ++ b.data := by
  cases a; cases b; rfl

theorem mk_data (s : String) : String.mk s.data = s := by
  cases s; rfl

theorem digitChar_isDigit {d : Nat} (h : d < 10) : (digitChar d).isDigit = true := by
  interval_cases d <;> decide

theorem digitVal_digitChar {d : Nat} (h : d < 10) : digitVal (digitChar d) = d := by
  interval_cases d <;> decide

theorem isDigit_ne_plus {c : Char} (h : c.isDigit = true) : ¬ c = '+' := by
  intro he
  subst he
  exact absurd h (by decide)

theorem isDigit_ne_minus {c : Char} (h : c.isDigit = true) : ¬ c = '-' := by
  intro he
  subst he
  exact absurd h (by decide)

theorem isDigit_ne_dot {c : Char} (h : c.isDigit = true) : ¬ c = '.' := by
  intro he
  subst he
  exact absurd h (by decide)

theorem valDigits_append_one (cs : List Char) (c : Char) :
    valDigits (cs ++ [c]) = 10 * valDigits cs + digitVal c := by
  simp [valDigits, List.foldl_append]

theorem natToDigitsAux_spec :
    ∀ fuel n, n < fuel →
      natToDigitsAux fuel n ≠ [] ∧
      (natToDigitsAux fuel n).all Char.isDigit = true ∧
      valDigits (natToDigitsAux fuel n) = n := by
  intro fuel
  induction fuel with
  | zero => intro n h; omega
  | succ f ih =>
    intro n h
    by_cases h10 : n < 10
    · refine ⟨?_, ?_, ?_⟩ <;>
        simp [natToDigitsAux, if_pos h10, valDigits, digitChar_isDigit h10,
          digitVal_digitChar h10]
    · obtain ⟨ih1, ih2, ih3⟩ := ih (n / 10) (by omega)
      have h9 : n % 10 < 10 := by omega
      refine ⟨?_, ?_, ?_⟩
      · simp [natToDigitsAux, if_neg h10]
      · simp [natToDigitsAux, if_neg h10, List.all_append, ih2, digitChar_isDigit h9]
      · simp only [natToDigitsAux, if_neg h10, valDigits_append_one, ih3,
          digitVal_digitChar h9]
        omega

theorem natToDigits_spec (n : Nat) :
    natToDigits n ≠ [] ∧ (natToDigits n).all Char.isDigit = true ∧
    valDigits (natToDigits n) = n :=
  natToDigitsAux_spec (n + 1) n (Nat.lt_succ_self n)

theorem natOfDigits_natToDigits (n : Nat) : natOfDigits (natToDigits n) = some n := by
  obtain ⟨h1, h2, h3⟩ := natToDigits_spec n
  simp [natOfDigits, h1, h2, h3]

theorem natToDigits_not_dot (n : Nat) : '.' ∉ natToDigits n := by
  obtain ⟨-, h2, -⟩ := natToDigits_spec n
  intro hmem
  exact absurd (List.all_eq_true.mp h2 _ hmem) (by decide)

theorem int64Min_def : int64Min = -9223372036854775808 := rfl

theorem int64Max_def : int64Max = 9223372036854775807 := rfl

theorem wrap64_id {m : Int} (h1 : int64Min ≤ m) (h2 : m ≤ int64Max) : wrap64 m = m := by
  rw [int64Min_def] at h1
  rw [int64Max_def] at h2
  simp only [wrap64]
  omega

theorem atoi_natDecStr {n : Nat} (h : (n : Int) ≤ int64Max) :
    atoi (natDecStr n) = some (n : Int) := by
  obtain ⟨h1, h2, -⟩ := natToDigits_spec n
  cases hcs : natToDigits n with
  | nil => exact absurd hcs h1
  | cons c rest =>
    have hc : c.isDigit = true := by
      rw [hcs] at h2
      simp only [List.all_cons, Bool.and_eq_true] at h2
      exact h2.1
    have hd : (natDecStr n).data = c :: rest := hcs
    have hred : atoi (natDecStr n)
        = if int64Min ≤ ((n : Nat) : Int) ∧ ((n : Nat) : Int) ≤ int64Max
          then some ((n : Nat) : Int) else none := by
      simp only [atoi, intLitVal, hd]
      rw [if_neg (isDigit_ne_plus hc), if_neg (isDigit_ne_minus hc), ← hcs,
        natOfDigits_natToDigits]
      rfl
    rw [hred, if_pos ⟨by rw [int64Min_def]; omega, h⟩]

theorem fmtInt_natCast (n : Nat) : fmtInt (n : Int) = natDecStr n := by
  rw [fmtInt, if_neg (by omega : ¬ ((n : Int) < 0))]
  have ht : ((n : Int)).toNat = n := by omega
  rw [ht]

theorem atoi_fmtInt {i : Int} (h1 : int64Min ≤ i) (h2 : i ≤ int64Max) :
    atoi (fmtInt i) = some i := by
  by_cases hneg : i < 0
  · rw [fmtInt, if_pos hneg]
    have hd : ("-" ++ natDecStr i.natAbs).data = '-' :: natToDigits i.natAbs := by
      rw [data_append]
      rfl
    have hred : atoi ("-" ++ natDecStr i.natAbs)
        = if int64Min ≤ -((i.natAbs : Nat) : Int) ∧ -((i.natAbs : Nat) : Int) ≤ int64Max
          then some (-((i.natAbs : Nat) : Int)) else none := by
      simp only [atoi, intLitVal, hd]
      rw [if_neg (by decide : ¬ ('-' : Char) = '+'), if_pos trivial,
        natOfDigits_natToDigits]
      rfl
    rw [hred, if_pos ⟨by rw [int64Min_def] at h1 ⊢; omega,
      by rw [int64Max_def]; omega⟩, Option.some_inj]
    omega
  · have ht : ((i.toNat : Nat) : Int) = i := by omega
    rw [fmtInt, if_neg hneg, atoi_natDecStr (by rw [ht]; exact h2), ht]

theorem fmtInt_not_dot (i : Int) : '.' ∉ (fmtInt i).data := by
  by_cases hneg : i < 0
  · rw [fmtInt, if_pos hneg]
    intro hmem
    rw [data_append] at hmem
    rcases List.mem_append.mp hmem with hm | hm
    · exact absurd hm (by decide)
    · exact natToDigits_not_dot _ hm
  · rw [fmtInt, if_neg hneg]
    exact natToDigits_not_dot _

theorem splitOnDot_no_dot {cs : List Char} (h : '.' ∉ cs) : splitOnDot cs = [cs] := by
  induction cs with
  | nil => rfl
  | cons c rest ih =>
    have hc : ¬ c = '.' := by
      intro he
      exact h (by simp [he])
    have hr : '.' ∉ rest := fun hm => h (List.mem_cons_of_mem _ hm)
    simp [splitOnDot, hc, ih hr]

theorem splitOnDot_append {xs : List Char} (ys : List Char) (h : '.' ∉ xs) :
    splitOnDot (xs ++ '.' :: ys) = xs :: splitOnDot ys := by
  induction xs with
  | nil => simp [splitOnDot]
  | cons c rest ih =>
    have hc : ¬ c = '.' := by
      intro he
      exact h (by simp [he])
    have hr : '.' ∉ rest := fun hm => h (List.mem_cons_of_mem _ hm)
    simp [splitOnDot, hc, ih hr]

theorem splitOnDot_three {a b c : List Char} (ha : '.' ∉ a) (hb : '.' ∉ b) (hc : '.' ∉ c) :
    splitOnDot (a ++ '.' :: (b ++ '.' :: c)) = [a, b, c] := by
  rw [splitOnDot_append _ ha, splitOnDot_append _ hb, splitOnDot_no_dot hc]

theorem stripLeading_append (p cs : List Char) : stripLeading p (p ++ cs) = some cs := by
  induction p with
  | nil => rfl
  | cons c ps ih => simp [stripLeading, ih]

theorem takeLine_append {cs : List Char} (h : '\n' ∉ cs) :
    takeLine (cs ++ ['\n']) = some cs := by
  induction cs with
  | nil => rfl
  | cons c rest ih =>
    have hc : ¬ c = '\n' := by
      intro he
      exact h (by simp [he])
    have hr : '\n' ∉ rest := fun hm => h (List.mem_cons_of_mem _ hm)
    simp [takeLine, hc, ih hr]

theorem yamlPlainChar_ne_quote {c : Char} (h : yamlPlainChar c = true) : ¬ c = '"' := by
  intro he
  subst he
  exact absurd h (by decide)

theorem yamlPlainChar_ne_newline {c : Char} (h : yamlPlainChar c = true) : ¬ c = '\n' := by
  intro he
  subst he
  exact absurd h (by decide)

theorem yamlPlain_spec {v : String} (h : yamlPlain v = true) :
    v.data ≠ [] ∧ ∀ c ∈ v.data, yamlPlainChar c = true := by
  simp only [yamlPlain, Bool.and_eq_true, List.all_eq_true] at h
  constructor
  · intro he
    rw [he] at h
    exact absurd h.1 (by decide)
  · exact h.2

theorem parseQuotedAux_escape :
    ∀ fuel (v rest : List Char), (yamlEscape v).length < fuel →
      parseQuotedAux fuel (yamlEscape v ++ '"' :: rest) = some (v, rest) := by
  intro fuel
  induction fuel with
  | zero => intro v rest h; omega
  | succ f ih =>
    intro v rest h
    cases v with
    | nil => simp [yamlEscape, parseQuotedAux]
    | cons c cs =>
      by_cases h1 : c = '"' ∨ c = '\\'
      · have hlen : (yamlEscape cs).length < f := by
          simp [yamlEscape, yamlEscapeChar, h1, List.length_append] at h
          omega
        simp [yamlEscape, yamlEscapeChar, h1, parseQuotedAux, ih cs rest hlen]
      · have hc1 : ¬ c = '"' := fun he => h1 (Or.inl he)
        have hc2 : ¬ c = '\\' := fun he => h1 (Or.inr he)
        by_cases h2 : c = '\n'
        · have hlen : (yamlEscape cs).length < f := by
            simp [yamlEscape, yamlEscapeChar, h1, h2, List.length_append] at h
            omega
          subst h2
          simp [yamlEscape, yamlEscapeChar, parseQuotedAux, ih cs rest hlen]
        · have hlen : (yamlEscape cs).length < f := by
            simp [yamlEscape, yamlEscapeChar, h1, h2, List.length_append] at h
            omega
          simp [yamlEscape, yamlEscapeChar, h1, h2, hc1, hc2, parseQuotedAux,
            ih cs rest hlen]

theorem parseQuoted_escape (v rest : List Char) :
    parseQuoted (yamlEscape v ++ '"' :: rest) = some (v, rest) := by
  unfold parseQuoted
  apply parseQuotedAux_escape
  simp only [List.length_append, List.length_cons]
  omega

theorem yamlUnmarshal_yamlMarshal (v : String) :
    yamlUnmarshal (yamlMarshal (Version.mk v)) = some (Version.mk v) := by
  by_cases hp : yamlPlain v = true
  · obtain ⟨hne, hall⟩ := yamlPlain_spec hp
    have hnl : '\n' ∉ v.data := fun hm => yamlPlainChar_ne_newline (hall _ hm) rfl
    have hstrip : stripLeading ("version: ".data) ((yamlMarshal (Version.mk v)).data)
        = some (v.data ++ ['\n']) := by
      have hd : (yamlMarshal (Version.mk v)).data
          = "version: ".data ++ (v.data ++ ['\n']) := by
        simp [yamlMarshal, hp, data_append]
      rw [hd]
      exact stripLeading_append _ _
    cases hcs : v.data with
    | nil => exact absurd hcs hne
    | cons c cs =>
      have hcq : ¬ c = '"' :=
        yamlPlainChar_ne_quote (hall c (by rw [hcs]; exact List.mem_cons_self c cs))
      have hhead : (v.data ++ ['\n']).head? = some c := by
        rw [hcs]
        rfl
      simp only [yamlUnmarshal, hstrip, hhead]
      rw [if_neg (by simpa using hcq), takeLine_append hnl]
  · have hstrip : stripLeading ("version: ".data) ((yamlMarshal (Version.mk v)).data)
        = some ('"' :: (yamlEscape v.data ++ ['"', '\n'])) := by
      have hd : (yamlMarshal (Version.mk v)).data
          = "version: ".data ++ ('"' :: (yamlEscape v.data ++ ['"', '\n'])) := by
        simp only [yamlMarshal, if_neg hp]
      rw [hd]
      exact stripLeading_append _ _
    simp only [yamlUnmarshal, hstrip, List.head?_cons, List.tail_cons]
    rw [if_pos (by simp), parseQuoted_escape v.data ['\n']]
    simp [mk_data]

theorem getTag_of_devFile {fs : FS} {v : String}
    (hf : fs.devFile = some (yamlMarshal (Version.mk v))) :
    getTag fs = Except.ok v := by
  simp only [getTag, hf, bufioNewReader, yamlUnmarshal_yamlMarshal]

theorem saveDev_of_writeOk {fs : FS} (t : String) (hw : fs.devOpenWriteOk = true) :
    saveDev t fs = (Except.ok (), { fs with devFile := some (yamlMarshal (Version.mk t)) }) := by
  simp only [saveDev, hw, bufioNewWriter, if_true]

theorem saveDev_fst (t : String) (fs : FS) :
    (saveDev t fs).1 = Except.ok () ∨ (saveDev t fs).1 = Except.error GoError.ioError := by
  cases hw : fs.devOpenWriteOk with
  | true => left; rw [saveDev_of_writeOk t hw]
  | false => right; simp [saveDev, hw]

theorem incrementDev_error_iff (v : String) :
    incrementDev v = Except.error GoError.invalidVersionFormat ↔ devTagMalformed v = true := by
  cases hs : splitOnDot v.data with
  | nil => simp [incrementDev, devTagMalformed, hs]
  | cons a t =>
    cases t with
    | nil => simp [incrementDev, devTagMalformed, hs]
    | cons b t2 =>
      cases t2 with
      | nil =>
        simp only [incrementDev, devTagMalformed, hs]
        cases ha : atoi (String.mk b) <;> simp
      | cons c t3 => simp [incrementDev, devTagMalformed, hs]

theorem incrementDev_error_kind {v : String} {e : GoError}
    (h : incrementDev v = Except.error e) : e = GoError.invalidVersionFormat := by
  cases hs : splitOnDot v.data with
  | nil =>
    simp only [incrementDev, hs] at h
    simp at h
    exact h.symm
  | cons a t =>
    cases t with
    | nil =>
      simp only [incrementDev, hs] at h
      simp at h
      exact h.symm
    | cons b t2 =>
      cases t2 with
      | nil =>
        simp only [incrementDev, hs] at h
        cases ha : atoi (String.mk b) with
        | none =>
          rw [ha] at h
          simp at h
          exact h.symm
        | some ver =>
          rw [ha] at h
          simp at h
      | cons c t3 =>
        simp only [incrementDev, hs] at h
        simp at h
        exact h.symm

theorem incrementDev_ok_of_wellFormed {v : String} (h : devTagMalformed v = false) :
    ∃ s, incrementDev v = Except.ok s := by
  cases hs : splitOnDot v.data with
  | nil => simp [devTagMalformed, hs] at h
  | cons a t =>
    cases t with
    | nil => simp [devTagMalformed, hs] at h
    | cons b t2 =>
      cases t2 with
      | nil =>
        simp only [devTagMalformed, hs] at h
        simp only [incrementDev, hs]
        cases ha : atoi (String.mk b) with
        | none =>
          rw [ha] at h
          simp at h
        | some ver => exact ⟨_, rfl⟩
      | cons c t3 => simp [devTagMalformed, hs] at h

theorem incrementRelease_error_iff (t : String) :
    incrementRelease t = Except.error GoError.invalidVersionFormat ↔ relTagMalformed t = true := by
  cases hs : splitOnDot t.data with
  | nil => simp [incrementRelease, relTagMalformed, hs]
  | cons a u =>
    cases u with
    | nil => simp [incrementRelease, relTagMalformed, hs]
    | cons b u2 =>
      cases u2 with
      | nil => simp [incrementRelease, relTagMalformed, hs]
      | cons c u3 =>
        cases u3 with
        | nil =>
          simp only [incrementRelease, relTagMalformed, hs]
          cases ha : atoi (String.mk b) <;> simp
        | cons d u4 => simp [incrementRelease, relTagMalformed, hs]

theorem natDecStr_data (n : Nat) : (natDecStr n).data = natToDigits n := rfl

theorem saveRelease_devFile (v : String) (fs : FS) :
    ((saveRelease v fs).2).devFile = fs.devFile := by
  cases hw : fs.newVersionOpenWriteOk <;> simp [saveRelease, hw, bufioNewWriter]

/-- Claim C1 counterexample: with the dev marker holding `dev.5` and a
malformed release tag, release mode returns `InvalidVersionFormat` and yet the
dev marker file has been rewritten from `version: dev.5` to `version: dev.1`,
so the claim that a malformed input performs no file write is false. -/
theorem claim_C1_counterexample :
    (main true "bogus" (FS.mk (some "version: dev.5\n") (some "1.2.0") true true)).1
        = MainResult.failed GoError.invalidVersionFormat ∧
    (main true "bogus" (FS.mk (some "version: dev.5\n") (some "1.2.0") true true)).2.devFile
        = some "version: dev.1\n" ∧
    (FS.mk (some "version: dev.5\n") (some "1.2.0") true true).devFile
        = some "version: dev.5\n" := by
  decide

/-- Claim C1 (amended): a malformed input tag always yields
`InvalidVersionFormat`, and the file the failing step would have written is
not written: in dev mode the filesystem is completely unchanged, while in
release mode the new-version file is untouched but the dev marker file has
already been reset to `dev.1` before the tag is parsed (assuming the dev write
itself succeeds). -/
theorem claim_C1_amended :
    (∀ fs v, fs.devFile = some (yamlMarshal (Version.mk v)) → ('\n') ∉ v.data →
        devTagMalformed v = true →
        bumpDev fs = (Except.error GoError.invalidVersionFormat, fs)) ∧
    (∀ fs tag, ¬ tag = "" → relTagMalformed tag = true → fs.devOpenWriteOk = true →
        main true tag fs
          = (MainResult.failed GoError.invalidVersionFormat,
             { fs with devFile := some (yamlMarshal (Version.mk DefaultTagVersion)) })) := by
  constructor
  · intro fs v hf _hnl hbad
    have hg : getTag fs = Except.ok v := getTag_of_devFile hf
    have he : incrementDev v = Except.error GoError.invalidVersionFormat :=
      (incrementDev_error_iff v).mpr hbad
    simp only [bumpDev, hg, he]
  · intro fs tag htag hbad hw
    have hsave := saveDev_of_writeOk DefaultTagVersion hw
    have herr : incrementRelease tag = Except.error GoError.invalidVersionFormat :=
      (incrementRelease_error_iff tag).mpr hbad
    simp only [main]
    rw [if_pos trivial, if_neg htag]
    simp only [resetDev, hsave, newRelease, herr]

/-- Claim C1 witness: the amended statement at concrete inputs, one for each
mode. -/
theorem claim_C1_amended_witness :
    bumpDev (FS.mk (some "version: dev.oops\n") none true true)
        = (Except.error GoError.invalidVersionFormat,
           FS.mk (some "version: dev.oops\n") none true true) ∧
    main true "nope" (FS.mk (some "version: dev.8\n") (some "old") true false)
        = (MainResult.failed GoError.invalidVersionFormat,
           FS.mk (some "version: dev.1\n") (some "old") true false) :=
  ⟨claim_C1_amended.1 (FS.mk (some "version: dev.oops\n") none true true) "dev.oops"
      rfl (by decide) (by decide),
   claim_C1_amended.2 (FS.mk (some "version: dev.8\n") (some "old") true false) "nope"
      (by decide) (by decide) rfl⟩

/-- Claim C2: in release mode with a non-empty tag, as long as the dev file is
writable, the final state always has the dev marker file reset to the yaml
form of `dev.1`, whatever the tag contains and whether or not the new-version
write succeeds: the reset happens before the release step and survives its
failure. -/
theorem claim_C2 (tag : String) (fs : FS) (htag : ¬ tag = "")
    (hw : fs.devOpenWriteOk = true) :
    ((main true tag fs).2).devFile = some (yamlMarshal (Version.mk DefaultTagVersion)) := by
  have hsave := saveDev_of_writeOk DefaultTagVersion hw
  simp only [main]
  rw [if_pos trivial, if_neg htag]
  simp only [resetDev, hsave]
  cases hinc : incrementRelease tag with
  | error e => simp [newRelease, hinc]
  | ok s =>
    simp only [newRelease, hinc]
    rcases hsr : saveRelease s
        ({ fs with devFile := some (yamlMarshal (Version.mk DefaultTagVersion)) }) with ⟨r, fs3⟩
    have hdev := saveRelease_devFile s
        ({ fs with devFile := some (yamlMarshal (Version.mk DefaultTagVersion)) })
    rw [hsr] at hdev
    cases r <;> simpa using hdev

/-- Claim C2 witness: the dev marker is reset even though the tag is malformed
and the new-version file is not writable. -/
theorem claim_C2_witness :
    ((main true "junk" (FS.mk (some "version: dev.7\n") none true false)).2).devFile
        = some (yamlMarshal (Version.mk DefaultTagVersion)) :=
  claim_C2 "junk" (FS.mk (some "version: dev.7\n") none true false) (by decide) rfl

/-- Claim C3 counterexample: `dev.9223372036854775808` is a valid dev tag in
the claim's sense (its numeric field is the non-negative decimal integer
2^63), yet `incrementDev` fails with `InvalidVersionFormat` because
`strconv.Atoi` is limited to signed 64-bit integers. -/
theorem claim_C3_counterexample :
    incrementDev "dev.9223372036854775808" = Except.error GoError.invalidVersionFormat := by
  decide

/-- Claim C3 (amended): for every non-negative integer N such that N + 1 still
fits in a signed 64-bit integer, incrementing the dev tag `dev.N` (canonical
decimal form) succeeds and returns exactly `dev.(N+1)`. -/
theorem claim_C3_amended (n : Nat) (h : n + 1 ≤ 9223372036854775807) :
    incrementDev ("dev." ++ natDecStr n) = Except.ok ("dev." ++ natDecStr (n + 1)) := by
  have hd : ("dev." ++ natDecStr n).data = ['d', 'e', 'v'] ++ '.' :: natToDigits n := by
    rw [data_append]
    rfl
  have hs : splitOnDot ("dev." ++ natDecStr n).data = [['d', 'e', 'v'], natToDigits n] := by
    rw [hd, splitOnDot_append _ (by decide), splitOnDot_no_dot (natToDigits_not_dot n)]
  have ha : atoi (String.mk (natToDigits n)) = some ((n : Nat) : Int) :=
    atoi_natDecStr (by rw [int64Max_def]; omega)
  have hw : wrap64 (((n : Nat) : Int) + 1) = ((n + 1 : Nat) : Int) := by
    rw [wrap64_id (by rw [int64Min_def]; omega) (by rw [int64Max_def]; omega)]
    omega
  simp only [incrementDev, hs, ha, hw, fmtInt_natCast]

/-- Claim C3 witness: the amended statement at N = 5, the spec's own
scenario `dev.5` to `dev.6`. -/
theorem claim_C3_witness :
    5 + 1 ≤ 9223372036854775807 ∧
    incrementDev ("dev." ++ natDecStr 5) = Except.ok ("dev." ++ natDecStr 6) :=
  ⟨by decide, claim_C3_amended 5 (by decide)⟩

/-- Claim C4 counterexample: `7.9223372036854775808.1` has three dot-separated
integer-bearing fields, yet `incrementRelease` fails with
`InvalidVersionFormat` because the MINOR field exceeds the signed 64-bit range
of `strconv.Atoi`. -/
theorem claim_C4_counterexample :
    incrementRelease "7.9223372036854775808.1" = Except.error GoError.invalidVersionFormat := by
  decide

/-- Claim C4 (amended): for all naturals MAJOR, MINOR, PATCH (canonical
decimal form) with MINOR + 1 within the signed 64-bit range, incrementing the
release tag succeeds and returns exactly `MAJOR.(MINOR+1).0`: MAJOR is
unchanged, MINOR is incremented, PATCH is reset to 0. -/
theorem claim_C4_amended (ma mi pa : Nat) (h : mi + 1 ≤ 9223372036854775807) :
    incrementRelease (natDecStr ma ++ "." ++ natDecStr mi ++ "." ++ natDecStr pa)
      = Except.ok (natDecStr ma ++ "." ++ natDecStr (mi + 1) ++ ".0") := by
  have hd : (natDecStr ma ++ "." ++ natDecStr mi ++ "." ++ natDecStr pa).data
      = natToDigits ma ++ '.' :: (natToDigits mi ++ '.' :: natToDigits pa) := by
    simp [data_append, natDecStr_data]
  have hs : splitOnDot (natDecStr ma ++ "." ++ natDecStr mi ++ "." ++ natDecStr pa).data
      = [natToDigits ma, natToDigits mi, natToDigits pa] := by
    rw [hd]
    exact splitOnDot_three (natToDigits_not_dot ma) (natToDigits_not_dot mi)
      (natToDigits_not_dot pa)
  have ha : atoi (String.mk (natToDigits mi)) = some ((mi : Nat) : Int) :=
    atoi_natDecStr (by rw [int64Max_def]; omega)
  have hw : wrap64 (((mi : Nat) : Int) + 1) = ((mi + 1 : Nat) : Int) := by
    rw [wrap64_id (by rw [int64Min_def]; omega) (by rw [int64Max_def]; omega)]
    omega
  simp only [incrementRelease, hs, ha, hw, fmtInt_natCast]
  rfl

/-- Claim C4 witness: the amended statement at 1.2.3, the spec's own
scenario yielding 1.3.0. -/
theorem claim_C4_witness :
    2 + 1 ≤ 9223372036854775807 ∧
    incrementRelease (natDecStr 1 ++ "." ++ natDecStr 2 ++ "." ++ natDecStr 3)
      = Except.ok (natDecStr 1 ++ "." ++ natDecStr 3 ++ ".0") :=
  ⟨by decide, claim_C4_amended 1 2 3 (by decide)⟩

/-- Claim C5: invoking the program with `-release -tag 1.2.3` on a filesystem
where both marker files are writable succeeds, leaves the dev marker file
holding the yaml document `version: dev.1` and the new-version marker file
holding the raw string `1.3.0` with no envelope. -/
theorem claim_C5 (fs : FS) (h1 : fs.devOpenWriteOk = true)
    (h2 : fs.newVersionOpenWriteOk = true) :
    main true "1.2.3" fs
      = (MainResult.succeeded,
         { fs with devFile := some "version: dev.1\n", newVersionFile := some "1.3.0" }) := by
  obtain ⟨d, nv, dw, nw⟩ := fs
  dsimp only at h1 h2
  subst h1
  subst h2
  rfl

/-- Claim C5 witness: the release scenario at a concrete starting
filesystem. -/
theorem claim_C5_witness :
    main true "1.2.3" (FS.mk (some "version: dev.9\n") (some "") true true)
      = (MainResult.succeeded,
         FS.mk (some "version: dev.1\n") (some "1.3.0") true true) :=
  claim_C5 (FS.mk (some "version: dev.9\n") (some "") true true) rfl rfl

/-- Claim C6 counterexample: with the dev marker holding
`dev.9223372036854775808`, the tag read from the file splits into exactly two
dot-separated fields and its second field is the integer 2^63, yet
`CutReleaseCandidate` still returns `InvalidVersionFormat`, so the claimed
equivalence (error iff wrong field count or non-integer second field) is
false: the real condition also rejects integers outside the signed 64-bit
range. -/
theorem claim_C6_counterexample :
    getTag (FS.mk (some "version: dev.9223372036854775808\n") none true true)
        = Except.ok "dev.9223372036854775808" ∧
    (splitOnDot ("dev.9223372036854775808").data).length = NumberOfSeparatorsInDevTag ∧
    intLitVal "9223372036854775808" = some 9223372036854775808 ∧
    (bumpDev (FS.mk (some "version: dev.9223372036854775808\n") none true true)).1
        = Except.error GoError.invalidVersionFormat := by
  decide

/-- Claim C6 (amended): given that the dev marker file was read successfully,
`CutReleaseCandidate` returns `InvalidVersionFormat` if and only if the
version string does not split into exactly two dot-separated fields or its
second field is not an integer within the signed 64-bit `Atoi` range; when the
tag is well formed the parse step succeeds. -/
theorem claim_C6_amended (fs : FS) (v : String) (hg : getTag fs = Except.ok v) :
    ((bumpDev fs).1 = Except.error GoError.invalidVersionFormat ↔ devTagMalformed v = true) ∧
    (devTagMalformed v = false → ∃ s, incrementDev v = Except.ok s) := by
  refine ⟨?_, fun hok => incrementDev_ok_of_wellFormed hok⟩
  simp only [bumpDev, hg]
  cases hinc : incrementDev v with
  | error e =>
    have he := incrementDev_error_kind hinc
    subst he
    simp [(incrementDev_error_iff v).mp hinc]
  | ok s =>
    apply iff_of_false
    · intro hbad
      rcases saveDev_fst s fs with hio | hio <;> rw [hio] at hbad <;> simp at hbad
    · intro hbad
      have hcontra := (incrementDev_error_iff v).mpr hbad
      rw [hinc] at hcontra
      simp at hcontra

/-- Claim C6 witness: the amended equivalence at a concrete well-formed dev
file. -/
theorem claim_C6_witness :
    ((bumpDev (FS.mk (some "version: dev.4\n") none true true)).1
        = Except.error GoError.invalidVersionFormat ↔ devTagMalformed "dev.4" = true) ∧
    (devTagMalformed "dev.4" = false → ∃ s, incrementDev "dev.4" = Except.ok s) :=
  claim_C6_amended (FS.mk (some "version: dev.4\n") none true true) "dev.4" (by decide)

/-- Claim C7: for every tag string, writing it with `saveDev` and re-reading
the dev marker file with `getTag` returns exactly the same version string
(hence the same numeric value), provided the dev marker file is writable. -/
theorem claim_C7 (t : String) (fs : FS) (hw : fs.devOpenWriteOk = true) :
    getTag ((saveDev t fs).2) = Except.ok t := by
  rw [saveDev_of_writeOk t hw]
  exact getTag_of_devFile rfl

/-- Claim C7 witness: the round trip at the concrete tag `dev.1` on an empty
filesystem. -/
theorem claim_C7_witness :
    getTag ((saveDev "dev.1" (FS.mk none none true true)).2) = Except.ok "dev.1" :=
  claim_C7 "dev.1" (FS.mk none none true true) rfl

/-- Claim C8: the `ErrDataWriterFailed` and `ErrDataReaderFailed` branches are
dead code.  `bufio.NewWriter` and `bufio.NewReader` always return a non-nil
handle, and consequently each file operation either succeeds or fails with one
of the other error kinds; none can ever return `dataWriterFailed` or
`dataReaderFailed`. -/
theorem claim_C8 :
    (∀ h : FileHandle, bufioNewWriter h = some (BufWriter.mk h)) ∧
    (∀ h : FileHandle, bufioNewReader h = some (BufReader.mk h)) ∧
    (∀ v fs, saveRelease v fs = (Except.ok (), { fs with newVersionFile := some v })
        ∨ saveRelease v fs = (Except.error GoError.ioError, fs)) ∧
    (∀ t fs, saveDev t fs = (Except.ok (), { fs with devFile := some (yamlMarshal (Version.mk t)) })
        ∨ saveDev t fs = (Except.error GoError.ioError, fs)) ∧
    (∀ fs, (∃ v, getTag fs = Except.ok v) ∨ getTag fs = Except.error GoError.ioError
        ∨ getTag fs = Except.error GoError.yamlError) := by
  refine ⟨fun _ => rfl, fun _ => rfl, ?_, ?_, ?_⟩
  · intro v fs
    cases hw : fs.newVersionOpenWriteOk with
    | true =>
      left
      simp [saveRelease, hw, bufioNewWriter]
    | false =>
      right
      simp [saveRelease, hw]
  · intro t fs
    cases hw : fs.devOpenWriteOk with
    | true =>
      left
      simp [saveDev, hw, bufioNewWriter]
    | false =>
      right
      simp [saveDev, hw]
  · intro fs
    cases hf : fs.devFile with
    | none =>
      right
      left
      simp [getTag, hf]
    | some content =>
      cases hy : yamlUnmarshal content with
      | none =>
        right
        right
        simp [getTag, hf, bufioNewReader, hy]
      | some ver =>
        left
        exact ⟨ver.version, by simp [getTag, hf, bufioNewReader, hy]⟩

/-- Claim C9 counterexample: `foo.9223372036854775808` has a dot-free first
field and an integer second field, yet `incrementDev` fails with
`InvalidVersionFormat` instead of succeeding, because the integer exceeds the
signed 64-bit `Atoi` range. -/
theorem claim_C9_counterexample :
    incrementDev "foo.9223372036854775808" = Except.error GoError.invalidVersionFormat := by
  decide

/-- Claim C9 (amended): `incrementDev` never inspects the first dot-separated
field: for every dot-free string X and every integer N (canonical decimal
form) in the signed 64-bit range whose successor is also in range, the input
`X.N` succeeds and yields `dev.(N+1)`, silently replacing X with the literal
`dev`. -/
theorem claim_C9_amended (x : String) (n : Int) (hx : '.' ∉ x.data)
    (h1 : int64Min ≤ n) (h2 : n + 1 ≤ int64Max) :
    incrementDev (x ++ "." ++ fmtInt n) = Except.ok ("dev." ++ fmtInt (n + 1)) := by
  have hd : (x ++ "." ++ fmtInt n).data = x.data ++ '.' :: (fmtInt n).data := by
    simp [data_append]
  have hs : splitOnDot (x ++ "." ++ fmtInt n).data = [x.data, (fmtInt n).data] := by
    rw [hd, splitOnDot_append _ hx, splitOnDot_no_dot (fmtInt_not_dot n)]
  have ha : atoi (String.mk (fmtInt n).data) = some n := by
    rw [mk_data]
    exact atoi_fmtInt h1 (by rw [int64Max_def] at h2 ⊢; omega)
  have hw : wrap64 (n + 1) = n + 1 :=
    wrap64_id (by rw [int64Min_def] at h1 ⊢; omega) h2
  simp only [incrementDev, hs, ha, hw]

/-- Claim C9 witness: the first field `foo` is replaced by `dev` and a
negative counter is handled, at concrete input `foo.-5`. -/
theorem claim_C9_witness :
    ('.' ∉ ("foo" : String).data ∧ int64Min ≤ (-5 : Int) ∧ (-5 : Int) + 1 ≤ int64Max) ∧
    incrementDev ("foo" ++ "." ++ fmtInt (-5)) = Except.ok ("dev." ++ fmtInt (-4)) :=
  ⟨⟨by decide, by decide, by decide⟩,
   claim_C9_amended "foo" (-5) (by decide) (by decide) (by decide)⟩

/-- Claim C10 counterexample: `x.9223372036854775808.y` has dot-free outer
fields and an integer middle field, yet `incrementRelease` fails with
`InvalidVersionFormat` instead of succeeding, because the integer exceeds the
signed 64-bit `Atoi` range. -/
theorem claim_C10_counterexample :
    incrementRelease "x.9223372036854775808.y" = Except.error GoError.invalidVersionFormat := by
  decide

/-- Claim C10 (amended): `incrementRelease` never parses the MAJOR or PATCH
fields: for arbitrary dot-free strings A and C and every integer N (canonical
decimal form) in the signed 64-bit range whose successor is also in range, the
input `A.N.C` succeeds and yields `A.(N+1).0`, copying A verbatim and
discarding C. -/
theorem claim_C10_amended (a c : String) (n : Int) (ha : '.' ∉ a.data) (hc : '.' ∉ c.data)
    (h1 : int64Min ≤ n) (h2 : n + 1 ≤ int64Max) :
    incrementRelease (a ++ "." ++ fmtInt n ++ "." ++ c)
      = Except.ok (a ++ "." ++ fmtInt (n + 1) ++ ".0") := by
  have hd : (a ++ "." ++ fmtInt n ++ "." ++ c).data
      = a.data ++ '.' :: ((fmtInt n).data ++ '.' :: c.data) := by
    simp [data_append]
  have hs : splitOnDot (a ++ "." ++ fmtInt n ++ "." ++ c).data
      = [a.data, (fmtInt n).data, c.data] := by
    rw [hd]
    exact splitOnDot_three ha (fmtInt_not_dot n) hc
  have hat : atoi (String.mk (fmtInt n).data) = some n := by
    rw [mk_data]
    exact atoi_fmtInt h1 (by rw [int64Max_def] at h2 ⊢; omega)
  have hw : wrap64 (n + 1) = n + 1 :=
    wrap64_id (by rw [int64Min_def] at h1 ⊢; omega) h2
  simp only [incrementRelease, hs, hat, hw, mk_data]

/-- Claim C10 witness: non-numeric MAJOR and PATCH fields are accepted, at
concrete input `v1.2.beta`. -/
theorem claim_C10_witness :
    ('.' ∉ ("v1" : String).data ∧ '.' ∉ ("beta" : String).data ∧
      int64Min ≤ (2 : Int) ∧ (2 : Int) + 1 ≤ int64Max) ∧
    incrementRelease ("v1" ++ "." ++ fmtInt 2 ++ "." ++ "beta")
      = Except.ok ("v1" ++ "." ++ fmtInt 3 ++ ".0") :=
  ⟨⟨by decide, by decide, by decide, by decide⟩,
   claim_C10_amended "v1" "beta" 2 (by decide) (by decide) (by decide) (by decide)⟩

end Tags
